import Mathlib

/-!
Verification of the patch-to-script compiler in
`stac_fastapi/sfeos_helpers/database/utils.py` against its natural-language
specification.  Pure functions of the source are translated directly; the
imperative loop of `operations_to_script` is translated by explicit state
passing.  The collaborators that live outside the given sources
(`ElasticPath`, `ESCommandSet`, the patch-operation records and
`get_bool_env`) are modelled from the specification's description of their
contracts.
-/

/-- JSON-like values carried by patch operations and merge documents. -/
inductive JSON where
  | null : JSON
  | b : Bool → JSON
  | num : Int → JSON
  | str : String → JSON
  | arr : List JSON → JSON
  | obj : List (String × JSON) → JSON

/-- Modelled from the spec: the patch-operation record
(`PatchOperation` / `PatchRemove` / `PatchAddReplaceTest` from
`stac_fastapi.extensions.core.transaction.request`, not part of the given
sources).  A tagged record `{op, path, from, value}`; `test` additionally
carries a display form of its value (`json_value`) for error messages.
`from_` is `none` for operation kinds that have no `from` attribute, so the
source's `hasattr(operation, "from_")` is translated as `from_.isSome`. -/
structure PatchOperation where
  op : String
  path : String
  from_ : Option String
  value : JSON
  json_value : String

/-- Injective escaping used to build the unique per-path tokens of the path
descriptor (`'.'` and `'_'` are escaped so that distinct paths never collide,
as required by the spec's uniqueness invariant for `paramKey`/`scratchVar`). -/
def escapeTok (s : String) : String :=
  String.join (s.data.map fun c =>
    if c = '.' then "_d" else if c = '_' then "_u" else String.singleton c)

/-- Digits-only test for a path segment. -/
def isDigits (s : String) : Bool :=
  decide (s.length > 0) && s.data.all Char.isDigit

/-- Join segments with dots. -/
def joinDots : List String → String
  | [] => ""
  | [x] => x
  | x :: y :: xs => x ++ "." ++ joinDots (y :: xs)

/-- Split a character list at dots (Python `"x".split(".")` semantics:
the empty string yields one empty segment, consecutive dots yield empty
segments). -/
def splitDotsAux : List Char → List Char → List String
  | [], acc => [String.mk acc.reverse]
  | c :: cs, acc =>
    if c = '.' then String.mk acc.reverse :: splitDotsAux cs []
    else splitDotsAux cs (c :: acc)

/-- Split a dotted path string into its segments. -/
def splitDots (s : String) : List String := splitDotsAux s.data []

/-- Numeric value of a digit string. -/
def digitsVal (cs : List Char) : Nat :=
  cs.foldl (fun a c => a * 10 + (c.toNat - 48)) 0

/-- ASCII lowercasing of a string (the behaviour of Python's `.lower()` on
the ASCII inputs relevant here). -/
def lowerStr (s : String) : String :=
  String.mk (s.data.map fun c =>
    if c.isUpper then Char.ofNat (c.toNat + 32) else c)

/-- Modelled from the spec: the path descriptor produced by the Path
Resolver (`ElasticPath` of `stac_fastapi.sfeos_helpers.models.patch`, not
part of the given sources).  Fields follow §3 of the spec: `nest` is the
parent path (empty when there is none), exactly one of `key`/`index` is the
final segment's reading, `es_nest`/`es_location`/`es_path` are the
target-dialect accessor expressions, `param_key` and `variable_name` are the
unique stable tokens for parameter binding and for the scratch variable. -/
structure ElasticPath where
  path : String
  nest : String
  key : String
  index : Option Nat
  es_path : String
  es_nest : String
  es_location : String
  param_key : String
  variable_name : String

/-- Modelled from the spec: pure resolution of a dotted path string into a
descriptor (§4.2).  The final segment becomes a numeric `index` when it is
all digits, otherwise the map `key`; `nest` is the rest; accessors are the
dotted dialect expressions; the two tokens use the injective escaping. -/
def ElasticPath.resolve (p : String) : ElasticPath :=
  let segs := splitDots p
  let key := (segs.reverse).headD ""
  let nest := joinDots segs.dropLast
  let index := if isDigits key then some (digitsVal key.data) else none
  { path := p
    nest := nest
    key := key
    index := index
    es_path := p
    es_nest := if nest = "" then "" else "." ++ nest
    es_location := if nest = "" then "" else "." ++ nest
    param_key := "p_" ++ escapeTok p
    variable_name := "v_" ++ escapeTok p }

/-- Modelled from the spec: `ESCommandSet` (not part of the given sources) —
an insertion-ordered collection of statement strings with set semantics. -/
abbrev ESCommandSet := List String

/-- Appending an already-present statement is a no-op; otherwise append. -/
def ESCommandSet.add (c : ESCommandSet) (s : String) : ESCommandSet :=
  if s ∈ c then c else c ++ [s]

/-- Fold `ESCommandSet.add` over a list of candidate statements. -/
def ESCommandSet.addAll (c : ESCommandSet) (l : List String) : ESCommandSet :=
  l.foldl ESCommandSet.add c

/-- The parameter map: a Python `dict` from parameter keys to values,
insertion ordered, with in-place update on an existing key. -/
abbrev Params := List (String × JSON)

/-- `params[k] = v` of Python: update in place when present, else append. -/
def Params.insert (m : Params) (k : String) (v : JSON) : Params :=
  if m.any (fun kv => kv.1 = k) then
    m.map (fun kv => if kv.1 = k then (k, v) else kv)
  else m ++ [(k, v)]

/-- Lookup in the parameter map. -/
def Params.find (m : Params) (k : String) : Option JSON :=
  (m.filter (fun kv => kv.1 = k)).headD ("", JSON.null) |>.2 |> fun v =>
    if m.any (fun kv => kv.1 = k) then some v else none

/-- Python truthiness of the `Optional[int]` field `path.index`:
`None` and `0` are falsy. -/
def truthyIndex : Option Nat → Bool
  | none => false
  | some n => decide (n ≠ 0)

/-! Statement builders: the f-strings of `utils.py`, one definition per
distinct statement shape.  `strCat` concatenates the interpolation pieces. -/

/-- Concatenation of the pieces of an f-string. -/
def strCat : List String → String
  | [] => ""
  | x :: xs => x ++ strCat xs

/-- Guard emitted by `check_commands` when `path.nest` is truthy. -/
def guard_nest_stmt (nest : String) : String :=
  strCat ["if (!ctx._source.containsKey('", nest, "'))",
    "\x7bDebug.explain('", nest, " does not exist');\x7d"]

/-- Guard emitted by `check_commands` for the final key/index. -/
def guard_key_stmt (p : ElasticPath) : String :=
  strCat ["if (!ctx._source", p.es_nest, ".containsKey('", p.key, "'))",
    "\x7bDebug.explain('", p.key, "  does not exist in ", p.nest, "');\x7d"]

/-- Display form of `path.index` as Python's f-string would render it. -/
def indexStr (p : ElasticPath) : String :=
  match p.index with
  | some i => toString i
  | none => "None"

/-- Combined array-or-key guard emitted by `check_commands` for a
source-side path with a non-null index. -/
def guard_index_stmt (p : ElasticPath) : String :=
  strCat ["if ((ctx._source", p.es_location, " instanceof ArrayList",
    " && ctx._source", p.es_location, ".size() < ", indexStr p, ")",
    " || (!(ctx._source", p.es_location, " instanceof ArrayList)",
    " && !ctx._source", p.es_location, ".containsKey('", indexStr p, "')))",
    "\x7bDebug.explain('", p.path, " does not exist');\x7d"]

/-- Statement emitted by `remove_commands`. -/
def remove_stmt (p : ElasticPath) : String :=
  match p.index with
  | some i =>
    strCat ["def ", p.variable_name, " = ctx._source", p.es_location,
      ".remove(", toString i, ");"]
  | none =>
    strCat ["def ", p.variable_name, " = ctx._source", p.es_nest,
      ".remove('", p.key, "');"]

/-- Statement emitted by `add_commands` once the value expression is
chosen: the array/fallback form for an indexed target, the direct
assignment for a keyed target. -/
def add_stmt (op : String) (p : ElasticPath) (value : String) : String :=
  match p.index with
  | some i =>
    strCat ["if (ctx._source", p.es_location, " instanceof ArrayList)",
      "\x7bctx._source", p.es_location, ".",
      (if op = "add" ∨ op = "move" then "add" else "set"),
      "(", toString i, ", ", value, ")\x7d",
      "else\x7bctx._source.", p.es_path, " = ", value, "\x7d"]
  | none =>
    strCat ["ctx._source.", p.es_path, " = ", value, ";"]

/-- Statement emitted by `test_commands` once the value expression is
chosen. -/
def test_stmt (operation : PatchOperation) (p : ElasticPath) (value : String) : String :=
  strCat ["if (ctx._source.", p.es_path, " != ", value, ")",
    "\x7bDebug.explain('Test failed `", p.path, "` | ",
    operation.json_value, " != ' + ctx._source.", p.es_path, ");\x7d"]

/-! Translations of the source procedures of `utils.py`. -/

/-- `check_commands` of `utils.py`: three conditional guard emissions.  The
conditions translate Python truthiness: `if path.nest` is `nest ≠ ""`,
`if path.index or ...` treats `None` and `0` as falsy,
`if from_path and path.index is not None` is the conjunction with
`index.isSome`. -/
def check_commands (commands : ESCommandSet) (op : String) (path : ElasticPath)
    (from_path : Bool) : ESCommandSet :=
  let c1 := if path.nest ≠ "" then commands.add (guard_nest_stmt path.nest) else commands
  let c2 :=
    if truthyIndex path.index ∨ op ∈ ["remove", "replace", "test"] ∨ from_path = true then
      c1.add (guard_key_stmt path)
    else c1
  if from_path = true ∧ path.index.isSome then c2.add (guard_index_stmt path) else c2

/-- `remove_commands` of `utils.py`. -/
def remove_commands (commands : ESCommandSet) (path : ElasticPath) : ESCommandSet :=
  commands.add (remove_stmt path)

/-- `add_commands` of `utils.py`: choose the value expression (scratch
variable for `move`, live source accessor for `copy`, else a bound
parameter) and emit the add/assign statement. -/
def add_commands (commands : ESCommandSet) (operation : PatchOperation)
    (path : ElasticPath) (from_path : Option ElasticPath) (params : Params) :
    ESCommandSet × Params :=
  match from_path with
  | some fp =>
    let value := if operation.op = "move" then fp.variable_name
      else "ctx._source." ++ fp.es_path
    (commands.add (add_stmt operation.op path value), params)
  | none =>
    let value := "params." ++ path.param_key
    (commands.add (add_stmt operation.op path value),
      params.insert path.param_key operation.value)

/-- `test_commands` of `utils.py`: bind the value as a parameter and emit
the comparison guard against the parameter reference. -/
def test_commands (commands : ESCommandSet) (operation : PatchOperation)
    (path : ElasticPath) (params : Params) : ESCommandSet × Params :=
  let value := "params." ++ path.param_key
  (commands.add (test_stmt operation path value),
    params.insert path.param_key operation.value)

/-- The local state of `operations_to_script`'s loop: the command set, the
parameter map, and the local variable `source`, which is `none` while the
Python local is still unbound (it is assigned only inside the loop body). -/
structure CompileState where
  commands : ESCommandSet
  params : Params
  source : Option String

/-- One iteration of the loop of `operations_to_script`. -/
def compile_step (st : CompileState) (operation : PatchOperation) : CompileState :=
  let path := ElasticPath.resolve operation.path
  let from_path := operation.from_.map ElasticPath.resolve
  let commands := check_commands st.commands operation.op path false
  let commands :=
    match from_path with
    | some fp => check_commands commands operation.op fp true
    | none => commands
  let commands :=
    if operation.op ∈ ["remove", "move"] then
      remove_commands commands (match from_path with | some fp => fp | none => path)
    else commands
  let cp :=
    if operation.op ∈ ["add", "replace", "copy", "move"] then
      add_commands commands operation path from_path st.params
    else (commands, st.params)
  let cp :=
    if operation.op = "test" then test_commands cp.1 operation path cp.2 else cp
  { commands := cp.1, params := cp.2, source := some (String.join cp.1) }

/-- The compiled script artifact `{source, lang, params}`. -/
structure Script where
  source : String
  lang : String
  params : Params

/-- `operations_to_script` of `utils.py`.  The final `return` reads the
local `source`; when the loop body never ran that local is unbound and the
function raises `UnboundLocalError`, translated here as `none`. -/
def operations_to_script (operations : List PatchOperation) : Option Script :=
  let st := operations.foldl compile_step
    { commands := [], params := [], source := none }
  match st.source with
  | some s => some { source := s, lang := "painless", params := st.params }
  | none => none

/-- Constructor used by `merge_to_operations` for `PatchRemove`. -/
def mkRemove (path : String) : PatchOperation :=
  { op := "remove", path := path, from_ := none, value := JSON.null, json_value := "" }

/-- Constructor used by `merge_to_operations` for `PatchAddReplaceTest`. -/
def mkAdd (path : String) (v : JSON) : PatchOperation :=
  { op := "add", path := path, from_ := none, value := v, json_value := "" }

/-- `merge_to_operations` of `utils.py`: null values become removes, nested
mappings recurse with the key prefixed to every produced path, anything
else becomes an add carrying the value. -/
def merge_to_operations : List (String × JSON) → List PatchOperation
  | [] => []
  | (key, JSON.null) :: rest => mkRemove key :: merge_to_operations rest
  | (key, JSON.obj fields) :: rest =>
      ((merge_to_operations fields).map fun o =>
        { o with path := key ++ "." ++ o.path }) ++ merge_to_operations rest
  | (key, JSON.b v) :: rest => mkAdd key (JSON.b v) :: merge_to_operations rest
  | (key, JSON.num v) :: rest => mkAdd key (JSON.num v) :: merge_to_operations rest
  | (key, JSON.str v) :: rest => mkAdd key (JSON.str v) :: merge_to_operations rest
  | (key, JSON.arr v) :: rest => mkAdd key (JSON.arr v) :: merge_to_operations rest

/-- `validate_refresh`'s input: a Python `Union[str, bool]`. -/
inductive RefreshIn where
  | bool : Bool → RefreshIn
  | str : String → RefreshIn

/-- The exact string set of the source's boolean-like membership test. -/
def bool_like : List String := ["true", "false", "1", "0", "yes", "no", "y", "n"]

/-- Modelled from the spec: `get_bool_env` of `stac_fastapi.core.utilities`
(not part of the given sources) — resolves the process-wide default flag
`DATABASE_REFRESH`: the environment value when set, else the boolean
reading of the supplied default. -/
def get_bool_env (env : Option Bool) (default : RefreshIn) : Bool :=
  match env with
  | some b => b
  | none =>
    match default with
    | RefreshIn.bool b => b
    | RefreshIn.str s => lowerStr s ∈ ["true", "1", "yes", "y"]

/-- `validate_refresh` of `utils.py`, with the process-wide flag made an
explicit argument.  Note the boolean-like membership test runs before any
lowercasing, exactly as in the source. -/
def validate_refresh (env : Option Bool) (value : RefreshIn) : String :=
  match value with
  | RefreshIn.bool b =>
    if get_bool_env env (RefreshIn.bool b) then "true" else "false"
  | RefreshIn.str s =>
    if s ∈ bool_like then
      if get_bool_env env (RefreshIn.str s) then "true" else "false"
    else
      let s := lowerStr s
      if s = "wait_for" then "wait_for" else "false"

/-- The `n`-th character of a string. -/
def charAt (s : String) (n : Nat) : Option Char := s.data[n]?

/-- A statement string of guard shape. -/
def IsGuard (s : String) : Prop :=
  charAt s 0 = some 'i' ∧ (charAt s 4 = some '!' ∨ charAt s 4 = some '(')

/-- The guard statements `check_commands` offers to the command set, in
emission order. -/
def check_stmts (op : String) (path : ElasticPath) (from_path : Bool) : List String :=
  (if path.nest ≠ "" then [guard_nest_stmt path.nest] else []) ++
  ((if truthyIndex path.index ∨ op ∈ ["remove", "replace", "test"] ∨ from_path = true
      then [guard_key_stmt path] else []) ++
   (if from_path = true ∧ path.index.isSome then [guard_index_stmt path] else []))

/-- The value expression chosen by `add_commands`. -/
def add_value (operation : PatchOperation) (path : ElasticPath)
    (from_path : Option ElasticPath) : String :=
  match from_path with
  | some fp =>
    if operation.op = "move" then fp.variable_name else "ctx._source." ++ fp.es_path
  | none => "params." ++ path.param_key

/-- The statements one loop iteration of `operations_to_script` offers to
the command set, in emission order — a function of the operation alone. -/
def step_stmts (operation : PatchOperation) : List String :=
  let path := ElasticPath.resolve operation.path
  let from_path := operation.from_.map ElasticPath.resolve
  check_stmts operation.op path false ++
  ((match from_path with
    | some fp => check_stmts operation.op fp true
    | none => []) ++
   ((if operation.op ∈ ["remove", "move"] then
       [remove_stmt (match from_path with | some fp => fp | none => path)] else []) ++
    ((if operation.op ∈ ["add", "replace", "copy", "move"] then
        [add_stmt operation.op path (add_value operation path from_path)] else []) ++
     (if operation.op = "test" then
        [test_stmt operation path ("params." ++ path.param_key)] else []))))

/-- The command set accumulated by compiling a list of operations. -/
def emit_fold (c : ESCommandSet) (ops : List PatchOperation) : ESCommandSet :=
  ops.foldl (fun c o => ESCommandSet.addAll c (step_stmts o)) c

/-- The loop of `operations_to_script`, returning each traversed operation
as the body leaves it (the body never assigns to an operation). -/
def compile_loop_frame : CompileState → List PatchOperation →
    List PatchOperation × CompileState
  | st, [] => ([], st)
  | st, operation :: rest =>
    let st2 := compile_step st operation
    let pr := compile_loop_frame st2 rest
    (operation :: pr.1, pr.2)

/-- `operations_to_script` threading the operation list through the loop. -/
def operations_to_script_frame (operations : List PatchOperation) :
    List PatchOperation × Option Script :=
  let pr := compile_loop_frame { commands := [], params := [], source := none }
    operations
  (pr.1,
    match pr.2.source with
    | some s => some { source := s, lang := "painless", params := pr.2.params }
    | none => none)

/-- `merge_to_operations` threading the merge document through the
recursion (the nested mapping of an `obj` value is traversed recursively
and rebuilt unchanged). -/
def merge_to_operations_frame : List (String × JSON) →
    List (String × JSON) × List PatchOperation
  | [] => ([], [])
  | (key, JSON.null) :: rest =>
    let pr := merge_to_operations_frame rest
    ((key, JSON.null) :: pr.1, mkRemove key :: pr.2)
  | (key, JSON.obj fields) :: rest =>
    let pn := merge_to_operations_frame fields
    let pr := merge_to_operations_frame rest
    ((key, JSON.obj pn.1) :: pr.1,
      (pn.2.map fun o => { o with path := key ++ "." ++ o.path }) ++ pr.2)
  | (key, JSON.b v) :: rest =>
    let pr := merge_to_operations_frame rest
    ((key, JSON.b v) :: pr.1, mkAdd key (JSON.b v) :: pr.2)
  | (key, JSON.num v) :: rest =>
    let pr := merge_to_operations_frame rest
    ((key, JSON.num v) :: pr.1, mkAdd key (JSON.num v) :: pr.2)
  | (key, JSON.str v) :: rest =>
    let pr := merge_to_operations_frame rest
    ((key, JSON.str v) :: pr.1, mkAdd key (JSON.str v) :: pr.2)
  | (key, JSON.arr v) :: rest =>
    let pr := merge_to_operations_frame rest
    ((key, JSON.arr v) :: pr.1, mkAdd key (JSON.arr v) :: pr.2)

/-! ### Basic facts about the deduplicating command sequence -/

theorem ESCommandSet.add_of_mem {c : ESCommandSet} {s : String} (h : s ∈ c) :
    ESCommandSet.add c s = c := by
  simp [ESCommandSet.add, h]

theorem ESCommandSet.add_of_not_mem {c : ESCommandSet} {s : String} (h : s ∉ c) :
    ESCommandSet.add c s = c ++ [s] := by
  simp [ESCommandSet.add, h]

theorem ESCommandSet.mem_add {c : ESCommandSet} {s t : String} :
    s ∈ ESCommandSet.add c t ↔ s ∈ c ∨ s = t := by
  unfold ESCommandSet.add
  split
  · next ht =>
    constructor
    · exact fun h => Or.inl h
    · rintro (h | rfl)
      · exact h
      · exact ht
  · simp [List.mem_append]

theorem ESCommandSet.nodup_add {c : ESCommandSet} {s : String} (h : c.Nodup) :
    (ESCommandSet.add c s).Nodup := by
  unfold ESCommandSet.add
  split
  · exact h
  · next hs =>
    refine List.Nodup.append h (List.nodup_singleton s) ?_
    intro x hx hx1
    rcases List.mem_singleton.mp hx1 with rfl
    exact hs hx

theorem ESCommandSet.mem_addAll_of_mem {c : ESCommandSet} {s : String}
    (l : List String) (h : s ∈ c) : s ∈ ESCommandSet.addAll c l := by
  induction l generalizing c with
  | nil => exact h
  | cons a l ih => exact ih (ESCommandSet.mem_add.mpr (Or.inl h))

theorem ESCommandSet.mem_addAll_self {c : ESCommandSet} {s : String}
    {l : List String} (h : s ∈ l) : s ∈ ESCommandSet.addAll c l := by
  induction l generalizing c with
  | nil => cases h
  | cons a l ih =>
    rcases List.mem_cons.mp h with rfl | h'
    · exact ESCommandSet.mem_addAll_of_mem l (ESCommandSet.mem_add.mpr (Or.inr rfl))
    · exact ih h'

theorem ESCommandSet.mem_of_mem_addAll {c : ESCommandSet} {s : String}
    {l : List String} (h : s ∈ ESCommandSet.addAll c l) : s ∈ c ∨ s ∈ l := by
  induction l generalizing c with
  | nil => exact Or.inl h
  | cons a l ih =>
    rcases ih h with h' | h'
    · rcases ESCommandSet.mem_add.mp h' with h'' | rfl
      · exact Or.inl h''
      · exact Or.inr (List.mem_cons_self _ _)
    · exact Or.inr (List.mem_cons_of_mem a h')

theorem ESCommandSet.addAll_of_subset {c : ESCommandSet} {l : List String}
    (h : ∀ s ∈ l, s ∈ c) : ESCommandSet.addAll c l = c := by
  induction l with
  | nil => rfl
  | cons a l ih =>
    show ESCommandSet.addAll (ESCommandSet.add c a) l = c
    rw [ESCommandSet.add_of_mem (h a (List.mem_cons_self a l))]
    exact ih fun s hs => h s (List.mem_cons_of_mem a hs)

theorem ESCommandSet.nodup_addAll {c : ESCommandSet} (l : List String)
    (h : c.Nodup) : (ESCommandSet.addAll c l).Nodup := by
  induction l generalizing c with
  | nil => exact h
  | cons a l ih => exact ih (ESCommandSet.nodup_add h)

/-! ### Character-level classification of emitted statements

Every guard statement starts with `"if (!"` or `"if (("`; every remove
statement starts with `"def "`; every add or test statement starts with
`"ctx"` or `"if (c"`.  These leading literals are independent of the path
contents, so guards, removes and adds can never collide in the
deduplicating command sequence. -/

theorem charAt_append {a : String} (b : String) {n : Nat}
    (h : n < a.data.length) : charAt (a ++ b) n = charAt a n := by
  unfold charAt
  rw [String.data_append, List.getElem?_append_left h]

theorem charAt_strCat {lit : String} (rest : List String) {n : Nat}
    (h : n < lit.data.length) : charAt (strCat (lit :: rest)) n = charAt lit n :=
  charAt_append _ h

theorem guard_nest_stmt_isGuard (n : String) : IsGuard (guard_nest_stmt n) := by
  unfold guard_nest_stmt IsGuard
  rw [charAt_strCat _ (by decide), charAt_strCat _ (by decide)]
  exact ⟨by decide, Or.inl (by decide)⟩

theorem guard_key_stmt_isGuard (p : ElasticPath) : IsGuard (guard_key_stmt p) := by
  unfold guard_key_stmt IsGuard
  rw [charAt_strCat _ (by decide), charAt_strCat _ (by decide)]
  exact ⟨by decide, Or.inl (by decide)⟩

theorem guard_index_stmt_isGuard (p : ElasticPath) : IsGuard (guard_index_stmt p) := by
  unfold guard_index_stmt IsGuard
  rw [charAt_strCat _ (by decide), charAt_strCat _ (by decide)]
  exact ⟨by decide, Or.inr (by decide)⟩

theorem remove_stmt_charAt0 (p : ElasticPath) :
    charAt (remove_stmt p) 0 = some 'd' := by
  unfold remove_stmt
  split <;> rw [charAt_strCat _ (by decide)] <;> decide

theorem add_stmt_charAt (op : String) (p : ElasticPath) (value : String) :
    charAt (add_stmt op p value) 0 = some 'c' ∨
      (charAt (add_stmt op p value) 0 = some 'i' ∧
        charAt (add_stmt op p value) 4 = some 'c') := by
  unfold add_stmt
  split
  · right
    rw [charAt_strCat _ (by decide), charAt_strCat _ (by decide)]
    exact ⟨by decide, by decide⟩
  · left
    rw [charAt_strCat _ (by decide)]
    decide

theorem test_stmt_charAt (o : PatchOperation) (p : ElasticPath) (value : String) :
    charAt (test_stmt o p value) 0 = some 'i' ∧
      charAt (test_stmt o p value) 4 = some 'c' := by
  unfold test_stmt
  rw [charAt_strCat _ (by decide), charAt_strCat _ (by decide)]
  exact ⟨by decide, by decide⟩

theorem IsGuard.ne_remove {s : String} (hs : IsGuard s) (p : ElasticPath) :
    s ≠ remove_stmt p := by
  intro e
  have := remove_stmt_charAt0 p
  rw [← e, hs.1] at this
  cases this

theorem IsGuard.ne_add {s : String} (hs : IsGuard s) (op : String)
    (p : ElasticPath) (value : String) : s ≠ add_stmt op p value := by
  intro e
  rcases add_stmt_charAt op p value with h | ⟨_, h4⟩
  · rw [← e, hs.1] at h
    cases h
  · rw [← e] at h4
    rcases hs.2 with h' | h' <;> rw [h'] at h4 <;> cases h4

theorem IsGuard.ne_test {s : String} (hs : IsGuard s) (o : PatchOperation)
    (p : ElasticPath) (value : String) : s ≠ test_stmt o p value := by
  intro e
  have h4 := (test_stmt_charAt o p value).2
  rw [← e] at h4
  rcases hs.2 with h' | h' <;> rw [h'] at h4 <;> cases h4

theorem remove_stmt_ne_add (p q : ElasticPath) (op : String) (value : String) :
    remove_stmt p ≠ add_stmt op q value := by
  intro e
  have h0 := remove_stmt_charAt0 p
  rcases add_stmt_charAt op q value with h | ⟨h, _⟩ <;> rw [← e, h0] at h <;> cases h

/-! ### Emission characterization of the procedures -/

theorem check_commands_eq (c : ESCommandSet) (op : String) (p : ElasticPath)
    (fp : Bool) : check_commands c op p fp = ESCommandSet.addAll c (check_stmts op p fp) := by
  unfold check_commands check_stmts ESCommandSet.addAll
  rw [List.foldl_append, List.foldl_append]
  split <;> split <;> split <;> rfl

theorem check_stmts_guards {op : String} {p : ElasticPath} {fp : Bool} {s : String}
    (h : s ∈ check_stmts op p fp) : IsGuard s := by
  unfold check_stmts at h
  rcases List.mem_append.mp h with h' | h'
  · split at h'
    · rcases List.mem_singleton.mp h' with rfl
      exact guard_nest_stmt_isGuard _
    · cases h'
  · rcases List.mem_append.mp h' with h'' | h''
    · split at h''
      · rcases List.mem_singleton.mp h'' with rfl
        exact guard_key_stmt_isGuard _
      · cases h''
    · split at h''
      · rcases List.mem_singleton.mp h'' with rfl
        exact guard_index_stmt_isGuard _
      · cases h''

theorem compile_step_commands (st : CompileState) (o : PatchOperation) :
    (compile_step st o).commands = ESCommandSet.addAll st.commands (step_stmts o) := by
  unfold compile_step step_stmts add_value remove_commands add_commands test_commands
  cases h : o.from_ with
  | none =>
    by_cases h1 : o.op ∈ ["remove", "move"] <;>
      by_cases h2 : o.op ∈ ["add", "replace", "copy", "move"] <;>
        by_cases h3 : o.op = "test" <;>
          simp [h, h1, h2, h3, check_commands_eq, ESCommandSet.addAll, List.foldl_append]
  | some f =>
    by_cases h1 : o.op ∈ ["remove", "move"] <;>
      by_cases h2 : o.op ∈ ["add", "replace", "copy", "move"] <;>
        by_cases h3 : o.op = "test" <;>
          by_cases h4 : o.op = "move" <;>
            simp [h, h1, h2, h3, h4, check_commands_eq, ESCommandSet.addAll,
              List.foldl_append]

/-! ### Loop-level lemmas -/

theorem foldl_compile_step_commands (st : CompileState) (ops : List PatchOperation) :
    (ops.foldl compile_step st).commands = emit_fold st.commands ops := by
  induction ops generalizing st with
  | nil => rfl
  | cons o rest ih =>
    show ((o :: rest).foldl compile_step st).commands = _
    rw [List.foldl_cons, ih (compile_step st o), compile_step_commands]
    rfl

theorem mem_emit_fold_of_mem {c : ESCommandSet} {s : String}
    (ops : List PatchOperation) (h : s ∈ c) : s ∈ emit_fold c ops := by
  induction ops generalizing c with
  | nil => exact h
  | cons o rest ih => exact ih (ESCommandSet.mem_addAll_of_mem _ h)

theorem mem_emit_fold_of_step {c : ESCommandSet} {s : String}
    {ops : List PatchOperation} {o : PatchOperation} (ho : o ∈ ops)
    (hs : s ∈ step_stmts o) : s ∈ emit_fold c ops := by
  induction ops generalizing c with
  | nil => cases ho
  | cons a rest ih =>
    rcases List.mem_cons.mp ho with rfl | ho'
    · exact mem_emit_fold_of_mem rest (ESCommandSet.mem_addAll_self hs)
    · exact ih ho'

theorem nodup_emit_fold {c : ESCommandSet} (ops : List PatchOperation)
    (h : c.Nodup) : (emit_fold c ops).Nodup := by
  induction ops generalizing c with
  | nil => exact h
  | cons o rest ih => exact ih (ESCommandSet.nodup_addAll _ h)

theorem emit_fold_append (c : ESCommandSet) (l1 l2 : List PatchOperation) :
    emit_fold c (l1 ++ l2) = emit_fold (emit_fold c l1) l2 :=
  List.foldl_append _ _ _ _

theorem emit_fold_skip {c : ESCommandSet} {x : PatchOperation}
    (rest : List PatchOperation) (h : ∀ s ∈ step_stmts x, s ∈ c) :
    emit_fold c (x :: rest) = emit_fold c rest := by
  show emit_fold (ESCommandSet.addAll c (step_stmts x)) rest = emit_fold c rest
  rw [ESCommandSet.addAll_of_subset h]

/-- After at least one iteration, the local `source` holds the join of the
current command set. -/
theorem foldl_source (st : CompileState) (o : PatchOperation)
    (rest : List PatchOperation) :
    ((o :: rest).foldl compile_step st).source =
      some (String.join (((o :: rest).foldl compile_step st).commands)) := by
  induction rest generalizing st o with
  | nil => rfl
  | cons b rest ih =>
    show ((b :: rest).foldl compile_step (compile_step st o)).source = _
    exact ih (compile_step st o) b

theorem operations_to_script_cons (o : PatchOperation) (rest : List PatchOperation) :
    operations_to_script (o :: rest) =
      some { source := String.join (((o :: rest).foldl compile_step
                { commands := [], params := [], source := none }).commands),
             lang := "painless",
             params := ((o :: rest).foldl compile_step
                { commands := [], params := [], source := none }).params } := by
  simp only [operations_to_script]
  rw [foldl_source]

/-! ### State-threaded variants for the frame claims

The loop bodies of `operations_to_script` and `merge_to_operations` only
read their inputs: the loop of `operations_to_script` reads
`operation.op/path/from_/value` and assigns to no operation field, and
`merge_to_operations` iterates a copy of its dictionary, reads the values,
and mutates only the operation objects it itself constructed.  The
state-threaded translations below therefore return the traversed input
alongside the result, so that "the input is unchanged after the call" is a
provable statement. -/

theorem compile_loop_frame_eq (st : CompileState) (ops : List PatchOperation) :
    compile_loop_frame st ops = (ops, ops.foldl compile_step st) := by
  induction ops generalizing st with
  | nil => rfl
  | cons o rest ih =>
    show (o :: (compile_loop_frame (compile_step st o) rest).1,
      (compile_loop_frame (compile_step st o) rest).2) = _
    rw [ih (compile_step st o)]
    rfl

theorem mem_check_commands {c : ESCommandSet} {op : String} {p : ElasticPath}
    {fp : Bool} {s : String} (h : s ∈ check_commands c op p fp) :
    s ∈ c ∨ IsGuard s := by
  rw [check_commands_eq] at h
  rcases ESCommandSet.mem_of_mem_addAll h with h' | h'
  · exact Or.inl h'
  · exact Or.inr (check_stmts_guards h')

/-! ### Claim theorems -/

/-- C1: the compiler is not total on the given code.  The statement
`source = "".join(commands)` sits inside the loop body, so for the empty
operation list the local `source` is never bound and the final `return`
raises `UnboundLocalError` (modelled as `none`) instead of returning the
script `{source := "", params := [], lang := "painless"}` promised by the
spec. -/
theorem operations_to_script_empty_raises : operations_to_script [] = none := rfl

/-- C7: `merge_to_operations` flattens a nested merge document depth-first
in iteration order: the empty mapping yields the empty list, a null value
yields a remove at its key, a nested mapping recurses with every produced
path re-rooted under `"{key}."`, and any other value yields an add carrying
that exact value; the function is total, and on the spec's example
`{"a": {"b": 1, "c": null}}` it yields
`[add(path="a.b", value=1), remove(path="a.c")]`. -/
theorem merge_to_operations_spec :
    merge_to_operations [] = [] ∧
    (∀ (k : String) (rest : List (String × JSON)),
      merge_to_operations ((k, JSON.null) :: rest) =
        mkRemove k :: merge_to_operations rest) ∧
    (∀ (k : String) (fields rest : List (String × JSON)),
      merge_to_operations ((k, JSON.obj fields) :: rest) =
        ((merge_to_operations fields).map fun o =>
          { o with path := k ++ "." ++ o.path }) ++ merge_to_operations rest) ∧
    (∀ (k : String) (v : Bool) (rest : List (String × JSON)),
      merge_to_operations ((k, JSON.b v) :: rest) =
        mkAdd k (JSON.b v) :: merge_to_operations rest) ∧
    (∀ (k : String) (v : Int) (rest : List (String × JSON)),
      merge_to_operations ((k, JSON.num v) :: rest) =
        mkAdd k (JSON.num v) :: merge_to_operations rest) ∧
    (∀ (k v : String) (rest : List (String × JSON)),
      merge_to_operations ((k, JSON.str v) :: rest) =
        mkAdd k (JSON.str v) :: merge_to_operations rest) ∧
    (∀ (k : String) (v : List JSON) (rest : List (String × JSON)),
      merge_to_operations ((k, JSON.arr v) :: rest) =
        mkAdd k (JSON.arr v) :: merge_to_operations rest) ∧
    merge_to_operations [("a", JSON.obj [("b", JSON.num 1), ("c", JSON.null)])] =
      [mkAdd "a.b" (JSON.num 1), mkRemove "a.c"] :=
  ⟨by simp [merge_to_operations],
    fun _ _ => by simp [merge_to_operations],
    fun _ _ _ => by simp [merge_to_operations],
    fun _ _ _ => by simp [merge_to_operations],
    fun _ _ _ => by simp [merge_to_operations],
    fun _ _ _ => by simp [merge_to_operations],
    fun _ _ _ => by simp [merge_to_operations],
    by simp [merge_to_operations, mkAdd, mkRemove]⟩

/-- C9: the compiler never mutates its input.  The state-threaded loop
returns the operation list exactly as it was passed in (the body reads
`op`, `path`, `from_` and `value` and assigns to none of them), and the
threaded variant computes the same script as `operations_to_script`. -/
theorem operations_to_script_frame_spec (ops : List PatchOperation) :
    (operations_to_script_frame ops).1 = ops ∧
    (operations_to_script_frame ops).2 = operations_to_script ops := by
  simp [operations_to_script_frame, operations_to_script,
    compile_loop_frame_eq]

/-- C10: `merge_to_operations` never mutates its input.  The state-threaded
recursion returns the merge document (including every nested mapping)
exactly as it was passed in, and computes the same operation list. -/
theorem merge_to_operations_frame_spec (data : List (String × JSON)) :
    (merge_to_operations_frame data).1 = data ∧
    (merge_to_operations_frame data).2 = merge_to_operations data := by
  induction data using merge_to_operations_frame.induct with
  | case1 => simp [merge_to_operations_frame, merge_to_operations]
  | case2 key rest ih =>
    simp [merge_to_operations_frame, merge_to_operations, ih.1, ih.2]
  | case3 key fields rest ihn ih =>
    simp [merge_to_operations_frame, merge_to_operations,
      ihn.1, ihn.2, ih.1, ih.2]
  | case4 key v rest ih =>
    simp [merge_to_operations_frame, merge_to_operations, ih.1, ih.2]
  | case5 key v rest ih =>
    simp [merge_to_operations_frame, merge_to_operations, ih.1, ih.2]
  | case6 key v rest ih =>
    simp [merge_to_operations_frame, merge_to_operations, ih.1, ih.2]
  | case7 key v rest ih =>
    simp [merge_to_operations_frame, merge_to_operations, ih.1, ih.2]

/-- C4: for every `move` operation, compiled from a fresh state, the
command sequence is exactly a block of guard statements (covering both
paths, including the source-side key-existence guard) followed by the
Remove at the source path and then the Add at the target path — so every
guard precedes every mutation and the Remove strictly precedes the Add —
and the Add's value expression is the source descriptor's scratch variable
while the parameter map stays empty. -/
theorem move_ordering (p f : String) :
    ∃ G : List String,
      (∀ s ∈ G, IsGuard s) ∧
      guard_key_stmt (ElasticPath.resolve f) ∈ G ∧
      (compile_step { commands := [], params := [], source := none }
        { op := "move", path := p, from_ := some f, value := JSON.null,
          json_value := "" }).commands =
        G ++ [remove_stmt (ElasticPath.resolve f),
          add_stmt "move" (ElasticPath.resolve p)
            (ElasticPath.resolve f).variable_name] ∧
      (compile_step { commands := [], params := [], source := none }
        { op := "move", path := p, from_ := some f, value := JSON.null,
          json_value := "" }).params = [] := by
  have hguards : ∀ s ∈ check_commands
      (check_commands [] "move" (ElasticPath.resolve p) false) "move"
      (ElasticPath.resolve f) true, IsGuard s := by
    intro s hs
    rcases mem_check_commands hs with h | h
    · rcases mem_check_commands h with h' | h'
      · cases h'
      · exact h'
    · exact h
  have hkey : guard_key_stmt (ElasticPath.resolve f) ∈ check_commands
      (check_commands [] "move" (ElasticPath.resolve p) false) "move"
      (ElasticPath.resolve f) true := by
    rw [check_commands_eq]
    apply ESCommandSet.mem_addAll_self
    unfold check_stmts
    refine List.mem_append.mpr (Or.inr (List.mem_append.mpr (Or.inl ?_)))
    rw [if_pos (Or.inr (Or.inr rfl))]
    exact List.mem_singleton.mpr rfl
  have hstep : (compile_step { commands := [], params := [], source := none }
      { op := "move", path := p, from_ := some f, value := JSON.null,
        json_value := "" }).commands =
      ESCommandSet.add (ESCommandSet.add
        (check_commands (check_commands [] "move" (ElasticPath.resolve p) false)
          "move" (ElasticPath.resolve f) true)
        (remove_stmt (ElasticPath.resolve f)))
        (add_stmt "move" (ElasticPath.resolve p)
          (ElasticPath.resolve f).variable_name) := rfl
  have hrem_not : remove_stmt (ElasticPath.resolve f) ∉ check_commands
      (check_commands [] "move" (ElasticPath.resolve p) false) "move"
      (ElasticPath.resolve f) true :=
    fun hmem => (hguards _ hmem).ne_remove (ElasticPath.resolve f) rfl
  have hadd_not : add_stmt "move" (ElasticPath.resolve p)
      (ElasticPath.resolve f).variable_name ∉ check_commands
      (check_commands [] "move" (ElasticPath.resolve p) false) "move"
      (ElasticPath.resolve f) true ++ [remove_stmt (ElasticPath.resolve f)] := by
    intro hmem
    rcases List.mem_append.mp hmem with h | h
    · exact (hguards _ h).ne_add "move" (ElasticPath.resolve p)
        (ElasticPath.resolve f).variable_name rfl
    · exact remove_stmt_ne_add (ElasticPath.resolve f) (ElasticPath.resolve p)
        "move" (ElasticPath.resolve f).variable_name (List.mem_singleton.mp h).symm
  refine ⟨_, hguards, hkey, ?_, rfl⟩
  rw [hstep, ESCommandSet.add_of_not_mem hrem_not,
    ESCommandSet.add_of_not_mem hadd_not, List.append_assoc]
  rfl

/-- C5: for every `copy` operation, compiled from a fresh state, the
command sequence is exactly a block of guard statements followed by one Add
whose value expression is the live accessor of the source path
(`ctx._source.<from.es_path>`); no statement of Remove shape (leading
`def `) occurs anywhere, and the parameter map stays empty. -/
theorem copy_semantics (p f : String) :
    ∃ G : List String,
      (∀ s ∈ G, IsGuard s) ∧
      (compile_step { commands := [], params := [], source := none }
        { op := "copy", path := p, from_ := some f, value := JSON.null,
          json_value := "" }).commands =
        G ++ [add_stmt "copy" (ElasticPath.resolve p)
          ("ctx._source." ++ (ElasticPath.resolve f).es_path)] ∧
      (∀ s ∈ (compile_step { commands := [], params := [], source := none }
        { op := "copy", path := p, from_ := some f, value := JSON.null,
          json_value := "" }).commands, charAt s 0 ≠ some 'd') ∧
      (compile_step { commands := [], params := [], source := none }
        { op := "copy", path := p, from_ := some f, value := JSON.null,
          json_value := "" }).params = [] := by
  have hguards : ∀ s ∈ check_commands
      (check_commands [] "copy" (ElasticPath.resolve p) false) "copy"
      (ElasticPath.resolve f) true, IsGuard s := by
    intro s hs
    rcases mem_check_commands hs with h | h
    · rcases mem_check_commands h with h' | h'
      · cases h'
      · exact h'
    · exact h
  have hstep : (compile_step { commands := [], params := [], source := none }
      { op := "copy", path := p, from_ := some f, value := JSON.null,
        json_value := "" }).commands =
      ESCommandSet.add
        (check_commands (check_commands [] "copy" (ElasticPath.resolve p) false)
          "copy" (ElasticPath.resolve f) true)
        (add_stmt "copy" (ElasticPath.resolve p)
          ("ctx._source." ++ (ElasticPath.resolve f).es_path)) := rfl
  have hadd_not : add_stmt "copy" (ElasticPath.resolve p)
      ("ctx._source." ++ (ElasticPath.resolve f).es_path) ∉ check_commands
      (check_commands [] "copy" (ElasticPath.resolve p) false) "copy"
      (ElasticPath.resolve f) true :=
    fun hmem => (hguards _ hmem).ne_add "copy" (ElasticPath.resolve p)
      ("ctx._source." ++ (ElasticPath.resolve f).es_path) rfl
  have hcomm : (compile_step { commands := [], params := [], source := none }
      { op := "copy", path := p, from_ := some f, value := JSON.null,
        json_value := "" }).commands =
      check_commands (check_commands [] "copy" (ElasticPath.resolve p) false)
        "copy" (ElasticPath.resolve f) true ++
      [add_stmt "copy" (ElasticPath.resolve p)
        ("ctx._source." ++ (ElasticPath.resolve f).es_path)] := by
    rw [hstep, ESCommandSet.add_of_not_mem hadd_not]
  refine ⟨_, hguards, hcomm, ?_, rfl⟩
  intro s hs
  rw [hcomm] at hs
  rcases List.mem_append.mp hs with h | h
  · intro e
    have h0 := (hguards _ h).1
    rw [e] at h0
    cases h0
  · rcases List.mem_singleton.mp h with rfl
    intro e
    rcases add_stmt_charAt "copy" (ElasticPath.resolve p)
        ("ctx._source." ++ (ElasticPath.resolve f).es_path) with h' | ⟨h', _⟩ <;>
      rw [e] at h' <;> cases h'

/-- C6: for every `test` operation, compiled from a fresh state, the
parameter map afterwards binds exactly the path's `param_key` to the
operation's value, and the command sequence is a block of guards followed
by the test guard, whose comparison operand is the parameter reference
`params.<param_key>` applied to the path's full accessor — the literal
value itself is never inlined as the operand. -/
theorem test_semantics (p : String) (v : JSON) (jv : String) :
    ∃ G : List String,
      (∀ s ∈ G, IsGuard s) ∧
      (compile_step { commands := [], params := [], source := none }
        { op := "test", path := p, from_ := none, value := v,
          json_value := jv }).commands =
        G ++ [test_stmt ({ op := "test", path := p, from_ := none, value := v, json_value := jv }) (ElasticPath.resolve p)
          ("params." ++ (ElasticPath.resolve p).param_key)] ∧
      (compile_step { commands := [], params := [], source := none }
        { op := "test", path := p, from_ := none, value := v,
          json_value := jv }).params =
        [((ElasticPath.resolve p).param_key, v)] := by
  have hguards : ∀ s ∈ check_commands [] "test" (ElasticPath.resolve p) false,
      IsGuard s := by
    intro s hs
    rcases mem_check_commands hs with h | h
    · cases h
    · exact h
  have htest_not : test_stmt ({ op := "test", path := p, from_ := none, value := v, json_value := jv }) (ElasticPath.resolve p)
      ("params." ++ (ElasticPath.resolve p).param_key) ∉
      check_commands [] "test" (ElasticPath.resolve p) false :=
    fun hmem => (hguards _ hmem).ne_test _ (ElasticPath.resolve p)
      ("params." ++ (ElasticPath.resolve p).param_key) rfl
  have hstep : (compile_step { commands := [], params := [], source := none }
      { op := "test", path := p, from_ := none, value := v,
        json_value := jv }).commands =
      ESCommandSet.add (check_commands [] "test" (ElasticPath.resolve p) false)
        (test_stmt ({ op := "test", path := p, from_ := none, value := v, json_value := jv }) (ElasticPath.resolve p)
          ("params." ++ (ElasticPath.resolve p).param_key)) := rfl
  refine ⟨_, hguards, ?_, rfl⟩
  rw [hstep, ESCommandSet.add_of_not_mem htest_not]

/-- C2 counterexample: the source tests `if path.index or ...`, and Python
treats index `0` as falsy, so for an `add` at path `"a.0"` — whose
descriptor addresses array index `0` — no key/index existence guard is
appended: the emitted commands consist of the parent guard alone. -/
theorem check_commands_index_zero_counterexample :
    (ElasticPath.resolve "a.0").index = some 0 ∧
    check_commands [] "add" (ElasticPath.resolve "a.0") false =
      [guard_nest_stmt "a"] ∧
    guard_key_stmt (ElasticPath.resolve "a.0") ∉
      check_commands [] "add" (ElasticPath.resolve "a.0") false := by
  refine ⟨rfl, rfl, ?_⟩
  decide

/-- C2 amended: the key/index existence guard is appended exactly when the
descriptor addresses a truthy (non-zero) array index, or the operation is
one of remove/replace/test, or the path is the source side of a move/copy;
in all other cases nothing is appended for that path besides (possibly) the
parent guard and the source-index guard.  Index `0` behaves like no index
because of Python truthiness. -/
theorem check_commands_key_guard (c : ESCommandSet) (op : String)
    (p : ElasticPath) (fp : Bool) :
    ((truthyIndex p.index = true ∨ op ∈ ["remove", "replace", "test"] ∨ fp = true) →
      guard_key_stmt p ∈ check_commands c op p fp) ∧
    (¬(truthyIndex p.index = true ∨ op ∈ ["remove", "replace", "test"] ∨ fp = true) →
      ∀ s ∈ check_commands c op p fp,
        s ∈ c ∨ s = guard_nest_stmt p.nest ∨ s = guard_index_stmt p) := by
  constructor
  · intro hc
    rw [check_commands_eq]
    apply ESCommandSet.mem_addAll_self
    unfold check_stmts
    refine List.mem_append.mpr (Or.inr (List.mem_append.mpr (Or.inl ?_)))
    rw [if_pos hc]
    exact List.mem_singleton.mpr rfl
  · intro hc s hs
    rw [check_commands_eq] at hs
    rcases ESCommandSet.mem_of_mem_addAll hs with h | h
    · exact Or.inl h
    · unfold check_stmts at h
      rcases List.mem_append.mp h with h' | h'
      · split at h'
        · exact Or.inr (Or.inl (List.mem_singleton.mp h'))
        · cases h'
      · rcases List.mem_append.mp h' with h'' | h''
        · rw [if_neg hc] at h''
          cases h''
        · split at h''
          · exact Or.inr (Or.inr (List.mem_singleton.mp h''))
          · cases h''

theorem check_commands_key_guard_witness :
    guard_key_stmt (ElasticPath.resolve "a.b") ∈
      check_commands [] "remove" (ElasticPath.resolve "a.b") false :=
  (check_commands_key_guard [] "remove" (ElasticPath.resolve "a.b") false).1
    (Or.inr (Or.inl (by decide)))

/-- C3 counterexample: the boolean-like membership test of
`validate_refresh` runs on the raw string, before any lowercasing, so the
upper-case boolean-like input `"TRUE"` does not resolve via the
process-wide flag (here: flag set, resolving to true) but falls through to
the catch-all and returns `"false"`. -/
theorem validate_refresh_uppercase_counterexample :
    get_bool_env (some true) (RefreshIn.str "TRUE") = true ∧
    validate_refresh (some true) (RefreshIn.str "TRUE") = "false" := ⟨rfl, rfl⟩

/-- C3 amended: an actual boolean, or one of the exact lower-case strings
true/false/1/0/yes/no/y/n, resolves via the process-wide default flag to
"true"/"false"; any other string is lowercased: "wait_for" (in any letter
case) returns "wait_for" and everything else — including upper-case
variants of the boolean-like strings — returns "false" (with a warning
logged). -/
theorem validate_refresh_amended (env : Option Bool) :
    (∀ b : Bool, validate_refresh env (RefreshIn.bool b) =
      (if get_bool_env env (RefreshIn.bool b) then "true" else "false")) ∧
    (∀ s : String, s ∈ bool_like → validate_refresh env (RefreshIn.str s) =
      (if get_bool_env env (RefreshIn.str s) then "true" else "false")) ∧
    (∀ s : String, s ∉ bool_like → lowerStr s = "wait_for" →
      validate_refresh env (RefreshIn.str s) = "wait_for") ∧
    (∀ s : String, s ∉ bool_like → lowerStr s ≠ "wait_for" →
      validate_refresh env (RefreshIn.str s) = "false") := by
  refine ⟨fun b => rfl, fun s hs => ?_, fun s hs hw => ?_, fun s hs hw => ?_⟩
  · simp [validate_refresh, hs]
  · simp [validate_refresh, hs, hw]
  · simp [validate_refresh, hs, hw]

theorem validate_refresh_amended_witness :
    validate_refresh none (RefreshIn.str "yes") =
      (if get_bool_env none (RefreshIn.str "yes") then "true" else "false") ∧
    validate_refresh none (RefreshIn.str "WAIT_FOR") = "wait_for" ∧
    validate_refresh none (RefreshIn.str "garbage") = "false" :=
  ⟨(validate_refresh_amended none).2.1 "yes" (by decide),
   (validate_refresh_amended none).2.2.1 "WAIT_FOR" (by decide) (by decide),
   (validate_refresh_amended none).2.2.2 "garbage" (by decide) (by decide)⟩

/-- C8: the command sequence deduplicates while preserving insertion order:
(1) appending an already-present statement is a no-op; (2) for any compiled
operation list, the parent-existence guard of an operation whose descriptor
has a truthy parent occurs exactly once in the final command sequence (so
two operations on paths sharing a parent, e.g. `"a.b"` and `"a.c"`, share
one guard); (3) a list containing two identical operations compiles to the
same source as the list with one copy removed. -/
theorem command_dedup :
    (∀ (c : ESCommandSet) (s : String), s ∈ c → ESCommandSet.add c s = c) ∧
    (∀ (ops : List PatchOperation) (o : PatchOperation), o ∈ ops →
      (ElasticPath.resolve o.path).nest ≠ "" →
      ((ops.foldl compile_step
          { commands := [], params := [], source := none }).commands.count
        (guard_nest_stmt (ElasticPath.resolve o.path).nest)) = 1) ∧
    (∀ (x : PatchOperation) (A B C : List PatchOperation),
      (operations_to_script (A ++ x :: (B ++ x :: C))).map Script.source =
        (operations_to_script (A ++ x :: (B ++ C))).map Script.source) := by
  refine ⟨fun c s h => ESCommandSet.add_of_mem h, ?_, ?_⟩
  · intro ops o ho hnest
    rw [foldl_compile_step_commands]
    apply List.count_eq_one_of_mem
    · exact nodup_emit_fold ops List.nodup_nil
    · apply mem_emit_fold_of_step ho
      show guard_nest_stmt (ElasticPath.resolve o.path).nest ∈
        check_stmts o.op (ElasticPath.resolve o.path) false ++ _
      apply List.mem_append.mpr
      left
      unfold check_stmts
      apply List.mem_append.mpr
      left
      rw [if_pos hnest]
      exact List.mem_singleton.mpr rfl
  · intro x A B C
    have hcomm : emit_fold [] (A ++ x :: (B ++ x :: C)) =
        emit_fold [] (A ++ x :: (B ++ C)) := by
      rw [emit_fold_append, emit_fold_append]
      have hsub : ∀ s ∈ step_stmts x,
          s ∈ emit_fold (ESCommandSet.addAll (emit_fold [] A) (step_stmts x)) B :=
        fun s hs => mem_emit_fold_of_mem B (ESCommandSet.mem_addAll_self hs)
      show emit_fold (ESCommandSet.addAll (emit_fold [] A) (step_stmts x))
          (B ++ x :: C) =
        emit_fold (ESCommandSet.addAll (emit_fold [] A) (step_stmts x)) (B ++ C)
      rw [emit_fold_append, emit_fold_append, emit_fold_skip C hsub]
    have key : ∀ (o : PatchOperation) (rest : List PatchOperation),
        (operations_to_script (o :: rest)).map Script.source =
          some (String.join (emit_fold [] (o :: rest))) := by
      intro o rest
      rw [operations_to_script_cons, foldl_compile_step_commands]
      rfl
    cases A with
    | nil =>
      rw [List.nil_append, List.nil_append, key, key]
      rw [show ([] : List PatchOperation) ++ x :: (B ++ x :: C) =
        x :: (B ++ x :: C) from rfl] at hcomm
      rw [show ([] : List PatchOperation) ++ x :: (B ++ C) =
        x :: (B ++ C) from rfl] at hcomm
      rw [hcomm]
    | cons a A =>
      rw [List.cons_append, List.cons_append] at hcomm
      rw [List.cons_append, List.cons_append, key, key, hcomm]

theorem command_dedup_witness :
    ESCommandSet.add [guard_nest_stmt "a"] (guard_nest_stmt "a") =
      [guard_nest_stmt "a"] ∧
    (([mkAdd "a.b" (JSON.num 1), mkAdd "a.c" (JSON.num 2)].foldl compile_step
        { commands := [], params := [], source := none }).commands.count
      (guard_nest_stmt (ElasticPath.resolve "a.b").nest)) = 1 ∧
    (operations_to_script ([] ++ mkAdd "a.b" (JSON.num 1) ::
        ([] ++ mkAdd "a.b" (JSON.num 1) :: []))).map Script.source =
      (operations_to_script ([] ++ mkAdd "a.b" (JSON.num 1) ::
        ([] ++ []))).map Script.source :=
  ⟨command_dedup.1 [guard_nest_stmt "a"] (guard_nest_stmt "a")
      (List.mem_singleton.mpr rfl),
   command_dedup.2.1 [mkAdd "a.b" (JSON.num 1), mkAdd "a.c" (JSON.num 2)]
      (mkAdd "a.b" (JSON.num 1)) (List.mem_cons_self _ _) (by decide),
   command_dedup.2.2 (mkAdd "a.b" (JSON.num 1)) [] [] []⟩

theorem move_ordering_witness :
    ∃ G : List String,
      (∀ s ∈ G, IsGuard s) ∧
      guard_key_stmt (ElasticPath.resolve "y") ∈ G ∧
      (compile_step { commands := [], params := [], source := none }
        { op := "move", path := "x", from_ := some "y", value := JSON.null,
          json_value := "" }).commands =
        G ++ [remove_stmt (ElasticPath.resolve "y"),
          add_stmt "move" (ElasticPath.resolve "x")
            (ElasticPath.resolve "y").variable_name] ∧
      (compile_step { commands := [], params := [], source := none }
        { op := "move", path := "x", from_ := some "y", value := JSON.null,
          json_value := "" }).params = [] :=
  move_ordering "x" "y"

theorem copy_semantics_witness :
    ∃ G : List String,
      (∀ s ∈ G, IsGuard s) ∧
      (compile_step { commands := [], params := [], source := none }
        { op := "copy", path := "x", from_ := some "y", value := JSON.null,
          json_value := "" }).commands =
        G ++ [add_stmt "copy" (ElasticPath.resolve "x")
          ("ctx._source." ++ (ElasticPath.resolve "y").es_path)] ∧
      (∀ s ∈ (compile_step { commands := [], params := [], source := none }
        { op := "copy", path := "x", from_ := some "y", value := JSON.null,
          json_value := "" }).commands, charAt s 0 ≠ some 'd') ∧
      (compile_step { commands := [], params := [], source := none }
        { op := "copy", path := "x", from_ := some "y", value := JSON.null,
          json_value := "" }).params = [] :=
  copy_semantics "x" "y"

theorem test_semantics_witness :
    ∃ G : List String,
      (∀ s ∈ G, IsGuard s) ∧
      (compile_step { commands := [], params := [], source := none }
        { op := "test", path := "x", from_ := none, value := JSON.num 7,
          json_value := "7" }).commands =
        G ++ [test_stmt ({ op := "test", path := "x", from_ := none, value := JSON.num 7, json_value := "7" }) (ElasticPath.resolve "x")
          ("params." ++ (ElasticPath.resolve "x").param_key)] ∧
      (compile_step { commands := [], params := [], source := none }
        { op := "test", path := "x", from_ := none, value := JSON.num 7,
          json_value := "7" }).params =
        [((ElasticPath.resolve "x").param_key, JSON.num 7)] :=
  test_semantics "x" (JSON.num 7) "7"

theorem merge_to_operations_spec_witness :
    merge_to_operations [("x", JSON.null)] =
      mkRemove "x" :: merge_to_operations [] :=
  merge_to_operations_spec.2.1 "x" []

theorem operations_to_script_frame_spec_witness :
    (operations_to_script_frame [mkRemove "x"]).1 = [mkRemove "x"] ∧
    (operations_to_script_frame [mkRemove "x"]).2 =
      operations_to_script [mkRemove "x"] :=
  operations_to_script_frame_spec [mkRemove "x"]

theorem merge_to_operations_frame_spec_witness :
    (merge_to_operations_frame [("x", JSON.obj [("y", JSON.null)])]).1 =
      [("x", JSON.obj [("y", JSON.null)])] ∧
    (merge_to_operations_frame [("x", JSON.obj [("y", JSON.null)])]).2 =
      merge_to_operations [("x", JSON.obj [("y", JSON.null)])] :=
  merge_to_operations_frame_spec [("x", JSON.obj [("y", JSON.null)])]
